import Mathlib

/-!
Verification development for the core of `jira-cli-for-agents`:
the ADF-to-plain-text document renderer (`pkg/jira` ADF file) and the
batch issue creation pipeline (`cmd` batch file and
`pkg/jira/issue.go`).

Go's dynamic `interface{}` values (as produced by `encoding/json`) are
modelled by the inductive type `GoVal`; Go maps (`map[string]interface{}`)
become association lists whose lookup takes the first match, numbers are
abstracted to `Int` (no embedded code distinguishes numeric values).
A Go function that can panic is embedded with result type `Option _`,
where `none` models a runtime panic.
-/

/-- Model of a Go `interface{}` value decoded from JSON:
strings, arrays, objects, numbers, booleans and `nil`/null. -/
inductive GoVal where
  | str : String → GoVal
  | arr : List GoVal → GoVal
  | obj : List (String × GoVal) → GoVal
  | num : Int → GoVal
  | bool : Bool → GoVal
  | null : GoVal

/-- Go map indexing `m[key]` on a `map[string]interface{}`:
`none` models a missing key. -/
def lookupVal : List (String × GoVal) → String → Option GoVal
  | [], _ => none
  | (k, v) :: rest, key => if k == key then some v else lookupVal rest key

/-- The Go idiom `s, _ := m[key].(string)`: the string held at `key`,
or `""` when the key is missing or not a string. -/
def getStr (m : List (String × GoVal)) (key : String) : String :=
  match lookupVal m key with
  | some (.str s) => s
  | _ => ""

/-- `strings.TrimRight(s, "\n")` on a character list. -/
def goTrimRightNl (l : List Char) : List Char :=
  (l.reverse.dropWhile (fun c => c == '\n')).reverse

/-- `strings.Split(s, "\n")` on a character list. -/
def goSplitNl : List Char → List (List Char)
  | [] => [[]]
  | c :: rest =>
    if c == '\n' then [] :: goSplitNl rest
    else
      match goSplitNl rest with
      | [] => [[c]]
      | g :: gs => (c :: g) :: gs

/-- `strings.ReplaceAll(s, "\n", r)` on character lists (the pattern is
the single character `'\n'`). -/
def goReplaceNl : List Char → List Char → List Char
  | [], _ => []
  | c :: rest, r => (if c == '\n' then r else [c]) ++ goReplaceNl rest r

/-- Go `unicode.IsSpace` restricted to the code points Jira text uses. -/
def goIsSpace (c : Char) : Bool :=
  c == ' ' || c == '\t' || c == '\n' || c == Char.ofNat 0x0B ||
  c == Char.ofNat 0x0C || c == '\r' || c == Char.ofNat 0x85 || c == Char.ofNat 0xA0

/-- `strings.TrimSpace` on a character list. -/
def goTrimSpace (l : List Char) : List Char :=
  ((l.dropWhile goIsSpace).reverse.dropWhile goIsSpace).reverse

/-- `strings.Join(parts, sep)` on character lists. -/
def goJoinChars (sep : List Char) : List (List Char) → List Char
  | [] => []
  | [x] => x
  | x :: xs => x ++ sep ++ goJoinChars sep xs

/-- `strings.Join(parts, sep)` on strings. -/
def goJoinStr (sep : String) : List String → String
  | [] => ""
  | [x] => x
  | x :: xs => x ++ sep ++ goJoinStr sep xs

/-- `strings.Repeat("  ", depth)`: the list-nesting indent. -/
def goIndent (depth : Nat) : List Char :=
  List.flatten (List.replicate depth [' ', ' '])

/-- Decimal digits of a natural number, for `fmt.Sprintf("%d. ", i+1)`. -/
def natChars (n : Nat) : List Char :=
  (Nat.repr n).data

/-- `strings.ToLower` (ASCII letters; the embedded code only compares
against the ASCII literal "epic"). -/
def goToLowerChar (c : Char) : Char :=
  if 'A' ≤ c ∧ c ≤ 'Z' then Char.ofNat (c.toNat + 32) else c

/-- `strings.ToLower` on a string. -/
def goToLower (s : String) : String :=
  ⟨s.data.map goToLowerChar⟩

/-- `strings.HasPrefix(s, "@")`. -/
def isAtRef (s : String) : Bool :=
  match s.data with
  | '@' :: _ => true
  | _ => false

/-- `strings.TrimPrefix(s, "@")`. -/
def trimAt (s : String) : String :=
  match s.data with
  | '@' :: rest => ⟨rest⟩
  | _ => s

/-- Lookup in the ID→Key map (`idToKey[refID]`), first match wins. -/
def lookupKey : List (String × String) → String → Option String
  | [], _ => none
  | (k, v) :: rest, key => if k == key then some v else lookupKey rest key

/-- Go map assignment `idToKey[id] = key`: a later write shadows an
earlier one under `lookupKey`'s first-match rule. -/
def insertKey (m : List (String × String)) (id key : String) : List (String × String) :=
  (id, key) :: m

/-!
Batch pipeline data model (`cmd` batch file and `pkg/models/jira.go`).
-/

/-- `models.IssueCreateResult`: id, key, self URL of a created issue. -/
structure IssueCreateResult where
  id : String
  key : String
  self : String

/-- `models.ErrorResponse`: error messages plus a field→message map
(the Go map is modelled as an association list; Go's randomized map
iteration order is fixed to list order here). -/
structure ErrorResponse where
  errorMessages : List String
  errors : List (String × String)

/-- `models.BulkCreateError`: a per-element failure in a bulk create
response, indexed by position in the submitted group. -/
structure BulkCreateError where
  failedElementNumber : Nat
  elementErrors : ErrorResponse

/-- `models.BulkCreateResponse`: created issues and per-element errors. -/
structure BulkCreateResponse where
  issues : List IssueCreateResult
  errors : List BulkCreateError

/-- `cmd.PreparedItem`: a batch item after template rendering.
`index` is the item's position in the original input list. -/
structure PreparedItem where
  index : Nat
  id : String
  type : String
  fields : List (String × GoVal)
  template : String
  rawData : List (String × GoVal)

/-- `cmd.CreatedIssue`: one entry of `BatchResult.Created`. -/
structure CreatedIssue where
  key : String
  type : String
  summary : String

/-- `cmd.BatchError`: one entry of `BatchResult.Errors`. -/
structure BatchError where
  index : Nat
  error : String
  data : List (String × GoVal)

/-- `cmd.BatchResult`: the aggregated report of one batch run. -/
structure BatchResult where
  success : Nat
  failed : Nat
  created : List CreatedIssue
  errors : List BatchError

/-- The zero `BatchResult` the pipeline starts from. -/
def emptyBatchResult : BatchResult :=
  ⟨0, 0, [], []⟩

/-- `cmd.formatBulkError`: joins error messages and field errors with
`"; "`, falling back to "unknown error". -/
def formatBulkError (e : ErrorResponse) : String :=
  let messages :=
    (if e.errorMessages.isEmpty then [] else [goJoinStr "; " e.errorMessages]) ++
      e.errors.map (fun p => p.1 ++ ": " ++ p.2)
  if messages.isEmpty then "unknown error" else goJoinStr "; " messages

/-- The Go idiom reading `item.Fields["summary"].(string)` with a
comma-ok assertion, defaulting to `""`. -/
def summaryOf (fields : List (String × GoVal)) : String :=
  match lookupVal fields "summary" with
  | some (.str s) => s
  | _ => ""

/-- `cmd.separateEpics`: splits prepared items into epics
(`strings.ToLower(Type) == "epic"`) and others, preserving order. -/
def separateEpics : List PreparedItem → List PreparedItem × List PreparedItem
  | [] => ([], [])
  | item :: rest =>
    let p := separateEpics rest
    if goToLower item.type == "epic" then (item :: p.1, p.2) else (p.1, item :: p.2)

mutual

/-- `cmd.resolveFieldReferences`: Go iterates the fields map and, per
value, switches on its dynamic type (string / map / slice); in-place
map mutation becomes a pure entry-wise update. -/
def resolveFieldReferences : List (String × GoVal) → List (String × String) → List (String × GoVal)
  | [], _ => []
  | (k, v) :: rest, idToKey =>
    (k, resolveOneValue v idToKey) :: resolveFieldReferences rest idToKey

/-- The per-value type switch inside `cmd.resolveFieldReferences`. -/
def resolveOneValue : GoVal → List (String × String) → GoVal
  | .str v, idToKey =>
    if isAtRef v then
      match lookupKey idToKey (trimAt v) with
      | some issueKey => .str issueKey
      | none => .str v
    else .str v
  | .obj m, idToKey => .obj (resolveFieldReferences m idToKey)
  | .arr items, idToKey => .arr (resolveArrayElems items idToKey)
  | v, _ => v

/-- The `[]interface{}` branch of `cmd.resolveFieldReferences`: array
elements that are maps are recursed into, string elements that are
`"@..."` references are replaced; anything else is left as is. -/
def resolveArrayElems : List GoVal → List (String × String) → List GoVal
  | [], _ => []
  | item :: rest, idToKey =>
    (match item with
      | .obj m => .obj (resolveFieldReferences m idToKey)
      | .str s =>
        if isAtRef s then
          match lookupKey idToKey (trimAt s) with
          | some issueKey => .str issueKey
          | none => .str s
        else .str s
      | other => other) :: resolveArrayElems rest idToKey

end

/-- `cmd.resolveReferences`: applies `resolveFieldReferences` to every
item's fields (Go mutates each `items[i].Fields` in place). -/
def resolveReferences (items : List PreparedItem) (idToKey : List (String × String)) :
    List PreparedItem :=
  items.map (fun it =>
    ⟨it.index, it.id, it.type, resolveFieldReferences it.fields idToKey, it.template, it.rawData⟩)

/-!
Bulk creation (`pkg/jira/issue.go`) and the batch command pipeline.
The HTTP transport behind `bulkCreateBatch` is an external collaborator
and is passed in as a function; `Except.error` is a Go non-nil `error`
(total transport/API failure of one request).
-/

/-- `IssueService.BulkCreateIssues`: one request for at most 50 issues,
otherwise chunks of 50 whose results are aggregated with error indices
shifted by the chunk offset; a failing chunk aborts with only an error,
discarding the aggregate built so far. -/
def BulkCreateIssues (bulkCreateBatch : List (List (String × GoVal)) → Except String BulkCreateResponse)
    (issues : List (List (String × GoVal))) : Except String BulkCreateResponse :=
  if issues.length ≤ 50 then bulkCreateBatch issues
  else
    (List.range ((issues.length + 49) / 50)).foldl
      (fun acc k =>
        match acc with
        | .error e => .error e
        | .ok resp =>
          let i := 50 * k
          let batch := (issues.drop i).take 50
          match bulkCreateBatch batch with
          | .error e =>
            .error ("failed to create batch " ++ Nat.repr i ++ "-" ++
              Nat.repr (min (i + 50) issues.length) ++ ": " ++ e)
          | .ok r =>
            .ok ⟨resp.issues ++ r.issues,
              resp.errors ++ r.errors.map (fun be =>
                ⟨be.failedElementNumber + i, be.elementErrors⟩)⟩)
      (.ok ⟨[], []⟩)

/-- `cmd.createBatch`: submits the group's fields to the bulk-create
service.  On a total failure every item of the group becomes an error
entry; otherwise the k-th returned issue is paired with the k-th
submitted item (`for i, created := range response.Issues` guarded by
`i < len(items)`), recording the ID→Key mapping and a `CreatedIssue`,
and each response error with an in-range `FailedElementNumber` becomes
a `BatchError` carrying that item's original `Index`.  Returns the
updated result and ID→Key map (Go mutates them through pointers). -/
def createBatch (bulk : List (List (String × GoVal)) → Except String BulkCreateResponse)
    (items : List PreparedItem) (result : BatchResult) (idToKey : List (String × String)) :
    BatchResult × List (String × String) :=
  let fieldsArray := items.map (fun it => it.fields)
  match bulk fieldsArray with
  | .error e =>
    (⟨result.success, result.failed, result.created,
      result.errors ++ items.map (fun item => ⟨item.index, e, item.rawData⟩)⟩, idToKey)
  | .ok response =>
    let succPairs := response.issues.zip items
    let idToKey' := succPairs.foldl
      (fun m p => if p.2.id ≠ "" then insertKey m p.2.id p.1.key else m) idToKey
    let created' := result.created ++
      succPairs.map (fun p => (⟨p.1.key, p.2.type, summaryOf p.2.fields⟩ : CreatedIssue))
    let errors' := result.errors ++
      response.errors.filterMap (fun bulkErr =>
        match items.get? bulkErr.failedElementNumber with
        | some item =>
          some (⟨item.index, formatBulkError bulkErr.elementErrors, item.rawData⟩ : BatchError)
        | none => none)
    (⟨result.success, result.failed, created', errors'⟩, idToKey')

/-- The validation loop of `cmd.runBatchCreate` (`for i, item := range
preparedItems { if err := ValidateIssueFields(...) ... }`): first
failure, with its loop index, or `none` when all items validate. -/
def validateLoop (validate : List (String × GoVal) → Except String Unit) :
    List PreparedItem → Nat → Option (Nat × String)
  | [], _ => none
  | item :: rest, i =>
    match validate item.fields with
    | .error msg => some (i, msg)
    | .ok _ => validateLoop validate rest (i + 1)

/-- `cmd.findEpicKey`: first string value found under the fixed list of
epic-link field aliases (a key that exists with a non-string value is
skipped, continuing with the next alias). -/
def findEpicKey (fields : List (String × GoVal)) : String :=
  let rec go : List String → String
    | [] => ""
    | name :: rest =>
      match lookupVal fields name with
      | some (.str s) => s
      | _ => go rest
  go ["epic", "epicKey", "EpicKey", "epic_link", "customfield_10014"]

/-- `cmd.linkStoriesToEpics`: best-effort linking.  For each item with
a recognizable epic key, the first created issue of the same type is
linked to it; the collaborator's result is discarded (`_ =`), so only
the attempted calls (with their outcomes) are returned — the
`BatchResult` is never touched. -/
def linkStoriesToEpics (link : String → String → Except String Unit)
    (items : List PreparedItem) (result : BatchResult) :
    List (String × String × Except String Unit) :=
  items.filterMap (fun item =>
    let epicKey := findEpicKey item.fields
    if epicKey == "" then none
    else
      match result.created.find? (fun created => created.type == item.type) with
      | some created =>
        if created.key == "" then none
        else some (created.key, epicKey, link created.key epicKey)
      | none => none)

/-- Observable outcome of one run of the batch creation pipeline:
either an abort error (nothing created) or the final `BatchResult`,
together with the trace of groups submitted to the bulk-create service
and of attempted epic links. -/
structure PipelineOutcome where
  abortError : Option (Nat × String)
  result : BatchResult
  bulkCalls : List (List (List (String × GoVal)))
  linkCalls : List (String × String × Except String Unit)

/-- `cmd.runBatchCreate` from validation onwards (template rendering
already done, no dry run): validate every prepared item (first failure
aborts before any creation call), separate epics, create epics first,
resolve `"@id"` references in the others using the ID→Key map built
from epic creation, create the others, attempt best-effort epic links,
and fill in the success/failure totals. -/
def runBatchCreate (validate : List (String × GoVal) → Except String Unit)
    (bulk : List (List (String × GoVal)) → Except String BulkCreateResponse)
    (link : String → String → Except String Unit)
    (prepared : List PreparedItem) : PipelineOutcome :=
  match validateLoop validate prepared 0 with
  | some im =>
    ⟨some (im.1, "validation failed for item " ++ Nat.repr im.1 ++ ": " ++ im.2),
      emptyBatchResult, [], []⟩
  | none =>
    let ep := separateEpics prepared
    let epics := ep.1
    let others := ep.2
    let cb1 := if epics.isEmpty then (emptyBatchResult, ([] : List (String × String)))
      else createBatch bulk epics emptyBatchResult []
    let calls1 : List (List (List (String × GoVal))) :=
      if epics.isEmpty then [] else [epics.map (fun it => it.fields)]
    let others' := resolveReferences others cb1.2
    let cb2 := if others'.isEmpty then cb1 else createBatch bulk others' cb1.1 cb1.2
    let calls2 : List (List (List (String × GoVal))) :=
      if others'.isEmpty then [] else [others'.map (fun it => it.fields)]
    let linkCalls := linkStoriesToEpics link others' cb2.1
    ⟨none,
      ⟨cb2.1.created.length, cb2.1.errors.length, cb2.1.created, cb2.1.errors⟩,
      calls1 ++ calls2, linkCalls⟩

/-!
ADF renderer (`pkg/jira` ADF file).  The recursion follows the Go
functions; `processChildren` and `processTableNode` are inlined into
the mutual block at their call sites.  Every recursive call descends
to a value found strictly inside its argument (an entry of the node's
`content` array, a child map's entries, or a list tail), so `sizeOf`
of the main argument strictly decreases along every call path and
bounds the recursion depth.  Each function carries that bound as
explicit fuel, decremented on every call; the public wrapper
`processADFNode` passes `sizeOf node`, which therefore always
suffices, making the fuel-zero branches unreachable.  A `none` result
models a Go runtime panic.
-/

/-- The media-item loop of `processMediaNode`: placeholders for `media`
children (`file` uses `alt`, `external` uses `url`, anything else is
`[Media]`); non-`media` and non-map children contribute nothing. -/
def mediaLoop : List GoVal → List Char
  | [] => []
  | item :: rest =>
    (match item with
      | .obj m =>
        if getStr m "type" == "media" then
          let attrs :=
            match lookupVal m "attrs" with
            | some (.obj a) => a
            | _ => []
          let mediaType := getStr attrs "type"
          if mediaType == "file" then
            match lookupVal attrs "alt" with
            | some (.str alt) =>
              if alt ≠ "" then "[File: ".data ++ alt.data ++ "]\n".data
              else "[File]\n".data
            | _ => "[File]\n".data
          else if mediaType == "external" then
            match lookupVal attrs "url" with
            | some (.str url) => "[Image: ".data ++ url.data ++ "]\n".data
            | _ => "[Image]\n".data
          else "[Media]\n".data
        else []
      | _ => []) ++ mediaLoop rest

/-- `processMediaNode`: a media container without a content array emits
a single `[Media]` placeholder, otherwise the item loop runs. -/
def processMediaNode (node : List (String × GoVal)) : List Char :=
  match lookupVal node "content" with
  | some (.arr items) => mediaLoop items
  | _ => "[Media]\n".data

mutual

/-- `processADFNode`, fuel-indexed: the per-kind switch of the
renderer.  `depth` is the list-nesting depth, `listIndex` is threaded
but never read (as in the source).  The `codeBlock` case mirrors the
source's single-value type assertion
`node["attrs"].(map[string]interface{})`, which panics (`none`) when
`attrs` is missing or not a map. -/
def processADFNodeF : Nat → List (String × GoVal) → Nat → Nat → Option (List Char)
  | 0, _, _, _ => some []
  | fuel + 1, node, depth, listIndex =>
    let nodeType := getStr node "type"
    if nodeType == "doc" then
      match lookupVal node "content" with
      | some (.arr items) => childrenLoopF fuel items depth
      | _ => some []
    else if nodeType == "paragraph" then
      (match lookupVal node "content" with
        | some (.arr items) => childrenLoopF fuel items depth
        | _ => some []).map (fun s => s ++ ['\n'])
    else if nodeType == "heading" then
      (match lookupVal node "content" with
        | some (.arr items) => childrenLoopF fuel items depth
        | _ => some []).map (fun s => s ++ ['\n'])
    else if nodeType == "text" then
      some (getStr node "text").data
    else if nodeType == "hardBreak" then
      some ['\n']
    else if nodeType == "codeBlock" then
      match lookupVal node "attrs" with
      | some (.obj attrs) =>
        let header :=
          match lookupVal attrs "language" with
          | some (.str lang) =>
            if lang ≠ "" then ['['] ++ lang.data ++ [']', '\n'] else []
          | _ => []
        (match lookupVal node "content" with
          | some (.arr items) => childrenLoopF fuel items depth
          | _ => some []).map (fun body => header ++ body ++ ['\n'])
      | _ => none
    else if nodeType == "blockquote" then
      (match lookupVal node "content" with
        | some (.arr items) => childrenLoopF fuel items depth
        | _ => some []).map (fun q =>
          List.flatten ((goSplitNl (goTrimRightNl q)).map (fun line =>
            '>' :: ' ' :: line ++ ['\n'])))
    else if nodeType == "bulletList" then
      match lookupVal node "content" with
      | some (.arr items) => listItemsLoopF fuel items depth false 0
      | _ => some []
    else if nodeType == "orderedList" then
      match lookupVal node "content" with
      | some (.arr items) => listItemsLoopF fuel items depth true 0
      | _ => some []
    else if nodeType == "listItem" then
      match lookupVal node "content" with
      | some (.arr items) => childrenLoopF fuel items depth
      | _ => some []
    else if nodeType == "mediaSingle" || nodeType == "mediaGroup" then
      some (processMediaNode node)
    else if nodeType == "rule" then
      some "---\n".data
    else if nodeType == "table" then
      match lookupVal node "content" with
      | some (.arr rows) => (tableRowsLoopF fuel rows).map (fun s => s ++ ['\n'])
      | _ => some []
    else if nodeType == "inlineCard" then
      some (match lookupVal node "attrs" with
        | some (.obj attrs) =>
          match lookupVal attrs "url" with
          | some (.str url) => url.data
          | _ => []
        | _ => [])
    else if nodeType == "mention" then
      some (match lookupVal node "attrs" with
        | some (.obj attrs) =>
          match lookupVal attrs "text" with
          | some (.str text) => text.data
          | _ => []
        | _ => [])
    else if nodeType == "emoji" then
      some (match lookupVal node "attrs" with
        | some (.obj attrs) =>
          match lookupVal attrs "shortName" with
          | some (.str shortName) => shortName.data
          | _ => []
        | _ => [])
    else
      match lookupVal node "content" with
      | some (.arr items) => childrenLoopF fuel items depth
      | _ => some []
termination_by structural fuel => fuel

/-- The loop of `processChildren`: processes each map child in order
(non-map children are skipped), concatenating the output. -/
def childrenLoopF : Nat → List GoVal → Nat → Option (List Char)
  | 0, _, _ => some []
  | fuel + 1, items, depth =>
    match items with
    | [] => some []
    | .obj m :: rest =>
      match processADFNodeF fuel m depth 0 with
      | none => none
      | some s =>
        match childrenLoopF fuel rest depth with
        | none => none
        | some t => some (s ++ t)
    | _ :: rest => childrenLoopF fuel rest depth
termination_by structural fuel => fuel

/-- The item loop of `processListItems`: `i` is the 0-based position in
the content array; map items get an indent and a marker (`"{i+1}. "`
when ordered, `"• "` otherwise) followed by the item body. -/
def listItemsLoopF : Nat → List GoVal → Nat → Bool → Nat → Option (List Char)
  | 0, _, _, _, _ => some []
  | fuel + 1, items, depth, ordered, i =>
    match items with
    | [] => some []
    | item :: rest =>
      let head : Option (List Char) :=
        match item with
        | .obj m =>
          let marker := if ordered then natChars (i + 1) ++ ". ".data else "• ".data
          let indent := goIndent depth
          match lookupVal m "content" with
          | some (.arr children) =>
            match listItemChildrenF fuel children depth [] with
            | none => none
            | some ob =>
              let tail :=
                if ob.2.isEmpty then []
                else goReplaceNl (goTrimRightNl ob.2) ('\n' :: (indent ++ "  ".data)) ++ ['\n']
              some (indent ++ marker ++ ob.1 ++ tail)
          | _ => some (indent ++ marker)
        | _ => some []
      match head with
      | none => none
      | some hd =>
        match listItemsLoopF fuel rest depth ordered (i + 1) with
        | none => none
        | some tl => some (hd ++ tl)
termination_by structural fuel => fuel

/-- The child loop inside one list item: a nested `bulletList` or
`orderedList` first flushes the buffered plain content (trailing
newlines trimmed) and is rendered at `depth+1` straight to the output;
every other map child is rendered at `depth+1` into the buffer.
Returns the directly written output and the final buffer. -/
def listItemChildrenF : Nat → List GoVal → Nat → List Char → Option (List Char × List Char)
  | 0, _, _, buf => some ([], buf)
  | fuel + 1, children, depth, buf =>
    match children with
    | [] => some ([], buf)
    | .obj m :: rest =>
      let childType := getStr m "type"
      if childType == "bulletList" || childType == "orderedList" then
        let flush := if buf.isEmpty then [] else goTrimRightNl buf ++ ['\n']
        match processADFNodeF fuel m (depth + 1) 0 with
        | none => none
        | some sub =>
          match listItemChildrenF fuel rest depth [] with
          | none => none
          | some p => some (flush ++ sub ++ p.1, p.2)
      else
        match processADFNodeF fuel m (depth + 1) 0 with
        | none => none
        | some sub => listItemChildrenF fuel rest depth (buf ++ sub)
    | _ :: rest => listItemChildrenF fuel rest depth buf
termination_by structural fuel => fuel

/-- The row loop of `processTableNode` (non-map rows are skipped). -/
def tableRowsLoopF : Nat → List GoVal → Option (List Char)
  | 0, _ => some []
  | fuel + 1, rows =>
    match rows with
    | [] => some []
    | .obj m :: rest =>
      match processTableRowF fuel m with
      | none => none
      | some s =>
        match tableRowsLoopF fuel rest with
        | none => none
        | some t => some (s ++ t)
    | _ :: rest => tableRowsLoopF fuel rest
termination_by structural fuel => fuel

/-- `processTableRow`: renders every map cell, then joins the cells as
a `"| ... | ... |"` line; a row without a content array emits nothing. -/
def processTableRowF : Nat → List (String × GoVal) → Option (List Char)
  | 0, _ => some []
  | fuel + 1, node =>
    match lookupVal node "content" with
    | some (.arr cells) =>
      match cellsLoopF fuel cells with
      | none => none
      | some cs => some ("| ".data ++ goJoinChars " | ".data cs ++ " |\n".data)
    | _ => some []
termination_by structural fuel => fuel

/-- The cell loop of `processTableRow`: each map cell's block content is
rendered at depth 0, trimmed of surrounding space, and its newlines
collapsed to single spaces; non-map cells are skipped. -/
def cellsLoopF : Nat → List GoVal → Option (List (List Char))
  | 0, _ => some []
  | fuel + 1, cells =>
    match cells with
    | [] => some []
    | .obj m :: rest =>
      match lookupVal m "content" with
      | some (.arr items) =>
        match childrenLoopF fuel items 0 with
        | none => none
        | some cellBuf =>
          match cellsLoopF fuel rest with
          | none => none
          | some cs => some (goReplaceNl (goTrimSpace cellBuf) [' '] :: cs)
      | _ =>
        match cellsLoopF fuel rest with
        | none => none
        | some cs => some (([] : List Char) :: cs)
    | _ :: rest => cellsLoopF fuel rest
termination_by structural fuel => fuel

end

mutual

/-- Computable size of a value, bounding the renderer's recursion
depth: every constructor counts one, so any value reachable inside
another has strictly smaller size. -/
def goValSize : GoVal → Nat
  | .arr l => goListSize l + 1
  | .obj e => goEntriesSize e + 1
  | _ => 1

/-- Size of a map's entries. -/
def goEntriesSize : List (String × GoVal) → Nat
  | [] => 1
  | (_, v) :: rest => goValSize v + goEntriesSize rest + 1

/-- Size of a sequence's elements. -/
def goListSize : List GoVal → Nat
  | [] => 1
  | v :: rest => goValSize v + goListSize rest + 1

end

/-- `processADFNode`: the renderer's recursive entry point, run with
fuel `goEntriesSize node`, which strictly bounds its recursion depth
(see the section comment), so the computation is exactly the source's. -/
def processADFNode (node : List (String × GoVal)) (depth listIndex : Nat) : Option (List Char) :=
  processADFNodeF (goEntriesSize node) node depth listIndex

/-- `ADFToPlainText`: `nil` renders to `""`, a string is returned
unchanged, a map is processed recursively with the trailing newlines
trimmed, and any other value degrades to `""`. -/
def ADFToPlainText (adf : GoVal) : Option String :=
  match adf with
  | .null => some ""
  | .str s => some s
  | .obj m =>
    match processADFNode m 0 0 with
    | none => none
    | some out => some ⟨goTrimRightNl out⟩
  | _ => some ""

/-!
Concrete scenarios used by the claim theorems.
-/

/-- A validator that accepts every item (validation collaborator). -/
def validateAlwaysOk : List (String × GoVal) → Except String Unit :=
  fun _ => .ok ()

/-- A linking collaborator that always succeeds. -/
def linkAlwaysOk : String → String → Except String Unit :=
  fun _ _ => .ok ()

/-- A linking collaborator that always fails. -/
def linkAlwaysFails : String → String → Except String Unit :=
  fun _ _ => .error "link failed"

/-- A codeBlock node with no `attrs` object (legal ADF: the language
attribute is optional). -/
def codeBlockNoAttrs : GoVal :=
  GoVal.obj [("type", GoVal.str "codeBlock"),
    ("content", GoVal.arr [GoVal.obj [("type", GoVal.str "text"), ("text", GoVal.str "hello")]])]

/-- The same codeBlock with `attrs.language = "json"`. -/
def codeBlockWithLang : GoVal :=
  GoVal.obj [("type", GoVal.str "codeBlock"),
    ("attrs", GoVal.obj [("language", GoVal.str "json")]),
    ("content", GoVal.arr [GoVal.obj [("type", GoVal.str "text"), ("text", GoVal.str "hello")]])]

/-- C1.  The spec claims `ADFToPlainText` returns a string for every
input and never raises or panics, with malformed or missing attributes
degrading to omission — explicitly including a codeBlock without an
`attrs` object.  The code violates this: the codeBlock case runs the
single-value type assertion `node["attrs"].(map[string]interface{})`,
which panics when `attrs` is absent (modelled by `none`), while the
same node with attrs present renders fine. -/
theorem ADFToPlainText_codeBlock_missing_attrs_panics :
    ADFToPlainText codeBlockNoAttrs = none ∧
    ADFToPlainText codeBlockWithLang = some "[json]\nhello" :=
  ⟨rfl, rfl⟩

/-- C8.  The renderer maps `nil` to `""` and is the identity on plain
string inputs. -/
theorem ADFToPlainText_nil_and_string :
    ADFToPlainText GoVal.null = some "" ∧ ∀ s : String, ADFToPlainText (GoVal.str s) = some s :=
  ⟨rfl, fun _ => rfl⟩

/-- A batch of 51 prepared non-epic items (original indices 0..50). -/
def batchItems51 : List PreparedItem :=
  (List.range 51).map (fun i =>
    ⟨i, "", "Task", [("summary", GoVal.str ("S" ++ Nat.repr i))], "t", []⟩)

/-- A transport that creates every issue of a full 50-item chunk and
fails with a total transport error on any other request: the first
chunk of `batchItems51` succeeds, the second fails. -/
def transport51 (batch : List (List (String × GoVal))) : Except String BulkCreateResponse :=
  if batch.length == 50 then
    .ok ⟨(List.range 50).map (fun k => ⟨"", "K" ++ Nat.repr k, ""⟩), []⟩
  else .error "connection reset"

/-- C2.  The claim: items reported as successfully created by any
bulk-create call during the run appear in `BatchResult.created`.  The
code violates it: for 51 items, chunk 1 (items 0–49) succeeds — the
transport reports 50 created issues — but chunk 2's transport failure
makes `BulkCreateIssues` return only an error, so the pipeline records
all 51 items (50 of which now exist in Jira) as errors and `created`
stays empty. -/
theorem batch_chunk_failure_discards_created :
    (∃ resp, transport51 ((batchItems51.map (fun it => it.fields)).take 50) = .ok resp ∧
      resp.issues.length = 50) ∧
    (runBatchCreate validateAlwaysOk (BulkCreateIssues transport51) linkAlwaysOk
        batchItems51).result.created = [] ∧
    (runBatchCreate validateAlwaysOk (BulkCreateIssues transport51) linkAlwaysOk
        batchItems51).result.errors.length = 51 :=
  ⟨⟨⟨(List.range 50).map (fun k => ⟨"", "K" ++ Nat.repr k, ""⟩), []⟩, rfl, rfl⟩, rfl, rfl⟩

/-- Three prepared non-epic items whose original input indices are
1, 2, 3 (an epic occupied original index 0). -/
def threeStories : List PreparedItem :=
  [⟨1, "s1", "Story", [("summary", GoVal.str "S1")], "story", []⟩,
   ⟨2, "s2", "Story", [("summary", GoVal.str "S2")], "story", []⟩,
   ⟨3, "s3", "Story", [("summary", GoVal.str "S3")], "story", []⟩]

/-- A bulk-create collaborator reporting partial success for the group:
items 1 and 3 created (keys PROJ-1 and PROJ-3), item 2 — submitted
position 1 — failed. -/
def bulkPartial : List (List (String × GoVal)) → Except String BulkCreateResponse :=
  fun _ => .ok ⟨[⟨"", "PROJ-1", ""⟩, ⟨"", "PROJ-3", ""⟩], [⟨1, ⟨["boom"], []⟩⟩]⟩

/-- C3.  The claim: on partial success each created element is appended
to `created` carrying its own key, type and summary, and each failure
is recorded with its original input index.  The error half holds (the
single error carries original index 2), but the created half fails:
the code pairs the k-th returned issue with the k-th submitted item,
so the second created entry pairs item 3's key PROJ-3 with the failed
item 2's summary "S2" (and maps item 2's id "s2" to PROJ-3). -/
theorem createBatch_partial_success_misattributes :
    (createBatch bulkPartial threeStories emptyBatchResult []).1.created =
      [⟨"PROJ-1", "Story", "S1"⟩, ⟨"PROJ-3", "Story", "S2"⟩] ∧
    (createBatch bulkPartial threeStories emptyBatchResult []).1.errors = [⟨2, "boom", []⟩] ∧
    (createBatch bulkPartial threeStories emptyBatchResult []).2 =
      [("s2", "PROJ-3"), ("s1", "PROJ-1")] :=
  ⟨rfl, rfl, rfl⟩

/-- A fields map holding a reference inside an array nested directly in
another array. -/
def nestedRefFields : List (String × GoVal) :=
  [("a", GoVal.arr [GoVal.arr [GoVal.str "@epic1"]])]

/-- The ID→Key map produced by creating `epic1` as PROJ-5. -/
def epicMap : List (String × String) :=
  [("epic1", "PROJ-5")]

/-- C4 counterexample.  The claim says reference resolution replaces
every string of the form `"@<id>"` with the mapped key, recursively
through nested maps and ordered sequences.  For a reference inside an
array nested directly in another array the code leaves the string
unchanged (`"@epic1"` does not become `"PROJ-5"`). -/
theorem resolveFieldReferences_nested_array_cex :
    resolveFieldReferences nestedRefFields epicMap = nestedRefFields ∧
    nestedRefFields ≠ [("a", GoVal.arr [GoVal.arr [GoVal.str "PROJ-5"]])] := by
  constructor
  · rfl
  · simp [nestedRefFields]

/-- C7.  Failures of the epic-linking collaborator are swallowed: the
returned `BatchResult` (so in particular `errors` and `success`) does
not depend on the linking collaborator at all — in particular an
always-failing linker yields the same result as an always-succeeding
one — and `success` always equals the number of created issues. -/
theorem link_failures_never_affect_result
    (validate : List (String × GoVal) → Except String Unit)
    (bulk : List (List (String × GoVal)) → Except String BulkCreateResponse)
    (link link' : String → String → Except String Unit)
    (prepared : List PreparedItem) :
    (runBatchCreate validate bulk link prepared).result =
      (runBatchCreate validate bulk link' prepared).result ∧
    (runBatchCreate validate bulk link prepared).result.success =
      (runBatchCreate validate bulk link prepared).result.created.length := by
  unfold runBatchCreate
  cases h : validateLoop validate prepared 0 with
  | some im => exact ⟨rfl, rfl⟩
  | none => exact ⟨rfl, rfl⟩

/-- The validation loop reports the first failing index (shifted by the
start counter `s`). -/
theorem validateLoop_finds_first (validate : List (String × GoVal) → Except String Unit) :
    ∀ (l : List PreparedItem) (s i : Nat) (item : PreparedItem) (msg : String),
      l.get? i = some item → validate item.fields = .error msg →
      (∀ j itj, j < i → l.get? j = some itj → validate itj.fields = .ok ()) →
      validateLoop validate l s = some (s + i, msg)
  | [], s, i, item, msg, h1, _, _ => by simp at h1
  | a :: rest, s, 0, item, msg, h1, h2, _ => by
    simp at h1
    subst h1
    simp [validateLoop, h2]
  | a :: rest, s, i + 1, item, msg, h1, h2, h3 => by
    have ha : validate a.fields = .ok () := h3 0 a (Nat.succ_pos i) rfl
    have hrest := validateLoop_finds_first validate rest (s + 1) i item msg h1 h2
      (fun j itj hj hg => h3 (j + 1) itj (Nat.succ_lt_succ hj) hg)
    simp [validateLoop, ha, hrest]
    omega

/-- C5.  If some prepared item fails schema validation (and every item
before it validates), the whole batch aborts carrying that item's
index, the bulk-create collaborator is never invoked (the trace of
bulk-create calls is empty), and nothing is created. -/
theorem validation_failure_aborts_before_create
    (validate : List (String × GoVal) → Except String Unit)
    (bulk : List (List (String × GoVal)) → Except String BulkCreateResponse)
    (link : String → String → Except String Unit)
    (prepared : List PreparedItem) (i : Nat) (item : PreparedItem) (msg : String)
    (h1 : prepared.get? i = some item) (h2 : validate item.fields = .error msg)
    (h3 : ∀ j itj, j < i → prepared.get? j = some itj → validate itj.fields = .ok ()) :
    (runBatchCreate validate bulk link prepared).abortError =
      some (i, "validation failed for item " ++ Nat.repr i ++ ": " ++ msg) ∧
    (runBatchCreate validate bulk link prepared).bulkCalls = [] ∧
    (runBatchCreate validate bulk link prepared).result.created = [] ∧
    (runBatchCreate validate bulk link prepared).result.errors = [] := by
  have hv : validateLoop validate prepared 0 = some (i, msg) := by
    have := validateLoop_finds_first validate prepared 0 i item msg h1 h2 h3
    simpa using this
  unfold runBatchCreate
  rw [hv]
  exact ⟨rfl, rfl, rfl, rfl⟩

/-- A validator rejecting any nonempty fields map. -/
def validateEmptyOnly : List (String × GoVal) → Except String Unit :=
  fun fs => if fs.isEmpty then .ok () else .error "missing project"

/-- A bulk-create collaborator for scenarios where it must not matter. -/
def bulkNever : List (List (String × GoVal)) → Except String BulkCreateResponse :=
  fun _ => .error "unreachable"

/-- Two prepared items of which the second fails validation. -/
def validationItems : List PreparedItem :=
  [⟨0, "", "Task", [], "t", []⟩,
   ⟨1, "", "Task", [("bad", GoVal.null)], "t", []⟩]

/-- Witness for C5 at a concrete input: item 1 fails validation, the
run aborts naming index 1, and no bulk-create call is made. -/
theorem validation_failure_aborts_before_create_witness :
    (runBatchCreate validateEmptyOnly bulkNever linkAlwaysOk validationItems).abortError =
      some (1, "validation failed for item " ++ Nat.repr 1 ++ ": " ++ "missing project") ∧
    (runBatchCreate validateEmptyOnly bulkNever linkAlwaysOk validationItems).bulkCalls = [] ∧
    (runBatchCreate validateEmptyOnly bulkNever linkAlwaysOk validationItems).result.created = [] ∧
    (runBatchCreate validateEmptyOnly bulkNever linkAlwaysOk validationItems).result.errors = [] :=
  validation_failure_aborts_before_create validateEmptyOnly bulkNever linkAlwaysOk
    validationItems 1 ⟨1, "", "Task", [("bad", GoVal.null)], "t", []⟩ "missing project"
    rfl rfl
    (fun j itj hj hg => by
      have hj0 : j = 0 := by omega
      subst hj0
      simp [validationItems] at hg
      rw [← hg]
      rfl)

/-- `separateEpics` is the pair of filters for the case-insensitive
"epic" test, so both partitions preserve the input's relative order. -/
theorem separateEpics_eq_filter (l : List PreparedItem) :
    separateEpics l =
      (l.filter (fun it => goToLower it.type == "epic"),
       l.filter (fun it => !(goToLower it.type == "epic"))) := by
  induction l with
  | nil => rfl
  | cons a rest ih =>
    cases hE : goToLower a.type == "epic" <;>
      simp [separateEpics, List.filter_cons, hE, ih]

/-- C6.  When validation passes and both partitions are nonempty, the
pipeline performs exactly two bulk-create calls: first the epics (the
order-preserving filter of the input by the case-insensitive "epic"
test, even when an epic appears later in the input), then the
non-epics, reference-resolved with the ID→Key map built from epic
creation; both in original relative order. -/
theorem epics_created_before_others
    (validate : List (String × GoVal) → Except String Unit)
    (bulk : List (List (String × GoVal)) → Except String BulkCreateResponse)
    (link : String → String → Except String Unit)
    (prepared : List PreparedItem)
    (hv : validateLoop validate prepared 0 = none)
    (he : prepared.filter (fun it => goToLower it.type == "epic") ≠ [])
    (ho : prepared.filter (fun it => !(goToLower it.type == "epic")) ≠ []) :
    ∃ m, (runBatchCreate validate bulk link prepared).bulkCalls =
      [(prepared.filter (fun it => goToLower it.type == "epic")).map (fun it => it.fields),
       (resolveReferences (prepared.filter (fun it => !(goToLower it.type == "epic"))) m).map
         (fun it => it.fields)] := by
  refine ⟨(createBatch bulk (prepared.filter (fun it => goToLower it.type == "epic"))
    emptyBatchResult []).2, ?_⟩
  have he2 : (prepared.filter (fun it => goToLower it.type == "epic")).isEmpty = false := by
    cases hx : prepared.filter (fun it => goToLower it.type == "epic") with
    | nil => exact (he hx).elim
    | cons a t => rfl
  have ho2 : ∀ m, ((resolveReferences (prepared.filter
      (fun it => !(goToLower it.type == "epic"))) m)).isEmpty = false := by
    intro m
    cases hx : prepared.filter (fun it => !(goToLower it.type == "epic")) with
    | nil => exact (ho hx).elim
    | cons a t => simp [resolveReferences, hx, List.isEmpty]
  unfold runBatchCreate
  rw [hv]
  simp only [separateEpics_eq_filter, he2, ho2, Bool.false_eq_true, if_false]
  rfl

/-- A batch with an epic in the middle of two stories (original input
indices 0, 1, 2). -/
def mixedBatch : List PreparedItem :=
  [⟨0, "a", "Story", [("summary", GoVal.str "A")], "story", []⟩,
   ⟨1, "e", "Epic", [("summary", GoVal.str "E")], "epic", []⟩,
   ⟨2, "b", "Story", [("summary", GoVal.str "B")], "story", []⟩]

/-- A bulk-create collaborator that creates every submitted issue with
the same key. -/
def bulkAllSucceed : List (List (String × GoVal)) → Except String BulkCreateResponse :=
  fun fs => .ok ⟨fs.map (fun _ => ⟨"", "PROJ-9", ""⟩), []⟩

/-- Witness for C6 at a concrete input: the epic at original position 1
is submitted in the first bulk-create call, the stories at positions 0
and 2 in the second. -/
theorem epics_created_before_others_witness :
    ∃ m, (runBatchCreate validateAlwaysOk bulkAllSucceed linkAlwaysOk mixedBatch).bulkCalls =
      [(mixedBatch.filter (fun it => goToLower it.type == "epic")).map (fun it => it.fields),
       (resolveReferences (mixedBatch.filter (fun it => !(goToLower it.type == "epic"))) m).map
         (fun it => it.fields)] :=
  epics_created_before_others validateAlwaysOk bulkAllSucceed linkAlwaysOk mixedBatch
    rfl (List.cons_ne_nil _ _) (List.cons_ne_nil _ _)

/-- The whole-string reference substitution described by the spec: a
string `"@<id>"` becomes the mapped key when `<id>` is in the ID→Key
map, anything else (including unresolved references) is unchanged. -/
def substituteRef (idToKey : List (String × String)) (s : String) : String :=
  if isAtRef s then
    match lookupKey idToKey (trimAt s) with
    | some key => key
    | none => s
  else s

mutual

/-- Amended-spec walker for a value held directly in a map: substitute
whole-string references, walk nested maps, walk sequences element-wise. -/
def specWalkMapValue (idToKey : List (String × String)) : GoVal → GoVal
  | .str s => .str (substituteRef idToKey s)
  | .obj e => .obj (specWalkEntries idToKey e)
  | .arr l => .arr (specWalkSeqElems idToKey l)
  | v => v

/-- Amended-spec walker over a map's entries. -/
def specWalkEntries (idToKey : List (String × String)) :
    List (String × GoVal) → List (String × GoVal)
  | [] => []
  | (k, v) :: rest => (k, specWalkMapValue idToKey v) :: specWalkEntries idToKey rest

/-- Amended-spec walker over a sequence's elements. -/
def specWalkSeqElems (idToKey : List (String × String)) : List GoVal → List GoVal
  | [] => []
  | v :: rest => specWalkSeqElem idToKey v :: specWalkSeqElems idToKey rest

/-- Amended-spec walker for one sequence element: substitute
whole-string references and walk nested maps; a sequence nested
directly inside a sequence is not walked. -/
def specWalkSeqElem (idToKey : List (String × String)) : GoVal → GoVal
  | .str s => .str (substituteRef idToKey s)
  | .obj e => .obj (specWalkEntries idToKey e)
  | v => v

end

mutual

/-- The code's per-value switch agrees with the amended-spec map-value
walker. -/
theorem resolveOneValue_eq_spec (idToKey : List (String × String)) :
    ∀ v : GoVal, resolveOneValue v idToKey = specWalkMapValue idToKey v
  | .str s => by
    cases hA : isAtRef s
    · simp [resolveOneValue, specWalkMapValue, substituteRef, hA]
    · cases hL : lookupKey idToKey (trimAt s) <;>
        simp [resolveOneValue, specWalkMapValue, substituteRef, hA, hL]
  | .obj e => by
    simp [resolveOneValue, specWalkMapValue, resolveFieldReferences_eq_spec idToKey e]
  | .arr l => by
    simp [resolveOneValue, specWalkMapValue, resolveArrayElems_eq_spec idToKey l]
  | .num n => rfl
  | .bool b => rfl
  | .null => rfl

/-- The code's fields walk agrees with the amended-spec entries walker. -/
theorem resolveFieldReferences_eq_spec (idToKey : List (String × String)) :
    ∀ e : List (String × GoVal), resolveFieldReferences e idToKey = specWalkEntries idToKey e
  | [] => rfl
  | (k, v) :: rest => by
    simp [resolveFieldReferences, specWalkEntries, resolveOneValue_eq_spec idToKey v,
      resolveFieldReferences_eq_spec idToKey rest]

/-- The code's array walk agrees with the amended-spec sequence walker. -/
theorem resolveArrayElems_eq_spec (idToKey : List (String × String)) :
    ∀ l : List GoVal, resolveArrayElems l idToKey = specWalkSeqElems idToKey l
  | [] => rfl
  | v :: rest => by
    have hrest := resolveArrayElems_eq_spec idToKey rest
    cases v with
    | str s =>
      cases hA : isAtRef s
      · simp [resolveArrayElems, specWalkSeqElems, specWalkSeqElem, substituteRef, hA, hrest]
      · cases hL : lookupKey idToKey (trimAt s) <;>
          simp [resolveArrayElems, specWalkSeqElems, specWalkSeqElem, substituteRef, hA, hL,
            hrest]
    | obj e =>
      simp [resolveArrayElems, specWalkSeqElems, specWalkSeqElem, hrest,
        resolveFieldReferences_eq_spec idToKey e]
    | arr l2 => simp [resolveArrayElems, specWalkSeqElems, specWalkSeqElem, hrest]
    | num n => simp [resolveArrayElems, specWalkSeqElems, specWalkSeqElem, hrest]
    | bool b => simp [resolveArrayElems, specWalkSeqElems, specWalkSeqElem, hrest]
    | null => simp [resolveArrayElems, specWalkSeqElems, specWalkSeqElem, hrest]

end

/-- C4 amended.  The code's reference resolution equals the amended-spec
walker — whole-string `"@<id>"` values are substituted at map values,
recursively through nested maps and through elements of sequences held
in map values, while a sequence nested directly inside a sequence is
not walked — and the spec's own example holds: a field holding
`"@epic1"` with `epic1 ↦ PROJ-5` becomes the literal `"PROJ-5"`. -/
theorem resolveFieldReferences_spec_refinement :
    (∀ (fields : List (String × GoVal)) (idToKey : List (String × String)),
      resolveFieldReferences fields idToKey = specWalkEntries idToKey fields) ∧
    resolveFieldReferences [("epicKey", GoVal.str "@epic1")] epicMap =
      [("epicKey", GoVal.str "PROJ-5")] :=
  ⟨fun fields idToKey => resolveFieldReferences_eq_spec idToKey fields, rfl⟩

mutual

/-- Structure skeleton of a value: string contents are erased, all
other payloads (numbers, booleans, null), every map key, and the shape
and order of every map and sequence are kept. -/
def skeletonVal : GoVal → GoVal
  | .str _ => .str ""
  | .arr l => .arr (skeletonArr l)
  | .obj e => .obj (skeletonEntries e)
  | v => v

/-- Skeleton of a map's entries (keys kept in order). -/
def skeletonEntries : List (String × GoVal) → List (String × GoVal)
  | [] => []
  | (k, v) :: rest => (k, skeletonVal v) :: skeletonEntries rest

/-- Skeleton of a sequence's elements (length and order kept). -/
def skeletonArr : List GoVal → List GoVal
  | [] => []
  | v :: rest => skeletonVal v :: skeletonArr rest

end

mutual

/-- All string leaves of a value, in traversal order. -/
def stringLeavesVal : GoVal → List String
  | .str s => [s]
  | .arr l => stringLeavesArr l
  | .obj e => stringLeavesEntries e
  | _ => []

/-- String leaves of a map's entries. -/
def stringLeavesEntries : List (String × GoVal) → List String
  | [] => []
  | (_, v) :: rest => stringLeavesVal v ++ stringLeavesEntries rest

/-- String leaves of a sequence's elements. -/
def stringLeavesArr : List GoVal → List String
  | [] => []
  | v :: rest => stringLeavesVal v ++ stringLeavesArr rest

end

/-- How one string leaf may change under reference resolution: it is
either unchanged, or it was a whole-string `"@<id>"` reference with
`<id>` mapped and became exactly the mapped key. -/
def refRel (idToKey : List (String × String)) (sIn sOut : String) : Prop :=
  sOut = sIn ∨ (isAtRef sIn = true ∧ lookupKey idToKey (trimAt sIn) = some sOut)

/-- `refRel` holds reflexively along any leaf list. -/
theorem refRel_refl_list (idToKey : List (String × String)) :
    ∀ l : List String, List.Forall₂ (refRel idToKey) l l
  | [] => List.Forall₂.nil
  | s :: rest => List.Forall₂.cons (Or.inl rfl) (refRel_refl_list idToKey rest)

/-- `Forall₂` combines along appended lists. -/
theorem forall₂_append_rel {α β : Type} {R : α → β → Prop} :
    ∀ {l₁ u₁ : List α} {l₂ u₂ : List β}, List.Forall₂ R l₁ l₂ → List.Forall₂ R u₁ u₂ →
      List.Forall₂ R (l₁ ++ u₁) (l₂ ++ u₂)
  | _, _, _, _, List.Forall₂.nil, h => by simpa using h
  | _, _, _, _, List.Forall₂.cons h₁ h₂, h => List.Forall₂.cons h₁ (forall₂_append_rel h₂ h)

mutual

/-- Resolution preserves the skeleton of a map value. -/
theorem skeleton_resolveOne (idToKey : List (String × String)) :
    ∀ v : GoVal, skeletonVal (resolveOneValue v idToKey) = skeletonVal v
  | .str s => by
    cases hA : isAtRef s
    · simp [resolveOneValue, hA, skeletonVal]
    · cases hL : lookupKey idToKey (trimAt s) <;>
        simp [resolveOneValue, hA, hL, skeletonVal]
  | .obj e => by simp [resolveOneValue, skeletonVal, skeleton_resolveEntries idToKey e]
  | .arr l => by simp [resolveOneValue, skeletonVal, skeleton_resolveArr idToKey l]
  | .num n => rfl
  | .bool b => rfl
  | .null => rfl

/-- Resolution preserves the skeleton of a fields map. -/
theorem skeleton_resolveEntries (idToKey : List (String × String)) :
    ∀ e : List (String × GoVal),
      skeletonEntries (resolveFieldReferences e idToKey) = skeletonEntries e
  | [] => rfl
  | (k, v) :: rest => by
    simp [resolveFieldReferences, skeletonEntries, skeleton_resolveOne idToKey v,
      skeleton_resolveEntries idToKey rest]

/-- Resolution preserves the skeleton of a sequence. -/
theorem skeleton_resolveArr (idToKey : List (String × String)) :
    ∀ l : List GoVal, skeletonArr (resolveArrayElems l idToKey) = skeletonArr l
  | [] => rfl
  | v :: rest => by
    have hrest := skeleton_resolveArr idToKey rest
    cases v with
    | str s =>
      cases hA : isAtRef s
      · simp [resolveArrayElems, hA, skeletonArr, skeletonVal, hrest]
      · cases hL : lookupKey idToKey (trimAt s) <;>
          simp [resolveArrayElems, hA, hL, skeletonArr, skeletonVal, hrest]
    | obj e => simp [resolveArrayElems, skeletonArr, skeletonVal, hrest,
        skeleton_resolveEntries idToKey e]
    | arr l2 => simp [resolveArrayElems, skeletonArr, hrest]
    | num n => simp [resolveArrayElems, skeletonArr, hrest]
    | bool b => simp [resolveArrayElems, skeletonArr, hrest]
    | null => simp [resolveArrayElems, skeletonArr, hrest]

end

mutual

/-- Each string leaf of a map value is unchanged or substituted per
`refRel`. -/
theorem leaves_resolveOne (idToKey : List (String × String)) :
    ∀ v : GoVal, List.Forall₂ (refRel idToKey)
      (stringLeavesVal v) (stringLeavesVal (resolveOneValue v idToKey))
  | .str s => by
    cases hA : isAtRef s
    · simpa [resolveOneValue, hA, stringLeavesVal] using
        (List.Forall₂.cons (Or.inl rfl) List.Forall₂.nil :
          List.Forall₂ (refRel idToKey) [s] [s])
    · cases hL : lookupKey idToKey (trimAt s) with
      | none =>
        simpa [resolveOneValue, hA, hL, stringLeavesVal] using
          (List.Forall₂.cons (Or.inl rfl) List.Forall₂.nil :
            List.Forall₂ (refRel idToKey) [s] [s])
      | some key =>
        simpa [resolveOneValue, hA, hL, stringLeavesVal] using
          (List.Forall₂.cons (Or.inr ⟨hA, hL⟩) List.Forall₂.nil :
            List.Forall₂ (refRel idToKey) [s] [key])
  | .obj e => by
    simpa [resolveOneValue, stringLeavesVal] using leaves_resolveEntries idToKey e
  | .arr l => by
    simpa [resolveOneValue, stringLeavesVal] using leaves_resolveArr idToKey l
  | .num n => List.Forall₂.nil
  | .bool b => List.Forall₂.nil
  | .null => List.Forall₂.nil

/-- Each string leaf of a fields map is unchanged or substituted per
`refRel`. -/
theorem leaves_resolveEntries (idToKey : List (String × String)) :
    ∀ e : List (String × GoVal), List.Forall₂ (refRel idToKey)
      (stringLeavesEntries e) (stringLeavesEntries (resolveFieldReferences e idToKey))
  | [] => List.Forall₂.nil
  | (k, v) :: rest => by
    simpa [resolveFieldReferences, stringLeavesEntries] using
      forall₂_append_rel (leaves_resolveOne idToKey v) (leaves_resolveEntries idToKey rest)

/-- Each string leaf of a sequence is unchanged or substituted per
`refRel`. -/
theorem leaves_resolveArr (idToKey : List (String × String)) :
    ∀ l : List GoVal, List.Forall₂ (refRel idToKey)
      (stringLeavesArr l) (stringLeavesArr (resolveArrayElems l idToKey))
  | [] => List.Forall₂.nil
  | v :: rest => by
    have hrest := leaves_resolveArr idToKey rest
    cases v with
    | str s =>
      cases hA : isAtRef s
      · simpa [resolveArrayElems, hA, stringLeavesArr, stringLeavesVal] using
          forall₂_append_rel
            (List.Forall₂.cons (Or.inl rfl) List.Forall₂.nil :
              List.Forall₂ (refRel idToKey) [s] [s]) hrest
      · cases hL : lookupKey idToKey (trimAt s) with
        | none =>
          simpa [resolveArrayElems, hA, hL, stringLeavesArr, stringLeavesVal] using
            forall₂_append_rel
              (List.Forall₂.cons (Or.inl rfl) List.Forall₂.nil :
                List.Forall₂ (refRel idToKey) [s] [s]) hrest
        | some key =>
          simpa [resolveArrayElems, hA, hL, stringLeavesArr, stringLeavesVal] using
            forall₂_append_rel
              (List.Forall₂.cons (Or.inr ⟨hA, hL⟩) List.Forall₂.nil :
                List.Forall₂ (refRel idToKey) [s] [key]) hrest
    | obj e =>
      simpa [resolveArrayElems, stringLeavesArr, stringLeavesVal] using
        forall₂_append_rel (leaves_resolveEntries idToKey e) hrest
    | arr l2 =>
      simpa [resolveArrayElems, stringLeavesArr, stringLeavesVal] using
        forall₂_append_rel (refRel_refl_list idToKey (stringLeavesArr l2)) hrest
    | num n => simpa [resolveArrayElems, stringLeavesArr, stringLeavesVal] using hrest
    | bool b => simpa [resolveArrayElems, stringLeavesArr, stringLeavesVal] using hrest
    | null => simpa [resolveArrayElems, stringLeavesArr, stringLeavesVal] using hrest
end

/-- C10.  Reference resolution only ever replaces whole string values:
the skeleton (map keys with their order, sequence lengths and order,
and every non-string payload) is preserved exactly, and each string
leaf, in order, is either unchanged or was a whole `"@<id>"` string
with `<id>` mapped and became exactly the mapped key. -/
theorem resolveFieldReferences_frame (fields : List (String × GoVal))
    (idToKey : List (String × String)) :
    skeletonEntries (resolveFieldReferences fields idToKey) = skeletonEntries fields ∧
    List.Forall₂ (refRel idToKey) (stringLeavesEntries fields)
      (stringLeavesEntries (resolveFieldReferences fields idToKey)) :=
  ⟨skeleton_resolveEntries idToKey fields, leaves_resolveEntries idToKey fields⟩

/-- `dropWhile` is the identity when no element satisfies the test. -/
theorem dropWhile_none {p : Char → Bool} :
    ∀ l : List Char, (∀ c ∈ l, p c = false) → l.dropWhile p = l
  | [], _ => rfl
  | c :: rest, h => by simp [List.dropWhile_cons, h c (by simp)]

/-- Trimming trailing newlines does nothing to newline-free text. -/
theorem goTrimRightNl_no_nl {l : List Char} (h : ∀ c ∈ l, c ≠ '\n') :
    goTrimRightNl l = l := by
  unfold goTrimRightNl
  rw [dropWhile_none]
  · exact List.reverse_reverse l
  · intro c hc
    simpa using h c (List.mem_reverse.mp hc)

/-- Newline replacement does nothing to newline-free text. -/
theorem goReplaceNl_no_nl {r : List Char} :
    ∀ (l : List Char), (∀ c ∈ l, c ≠ '\n') → goReplaceNl l r = l
  | [], _ => rfl
  | c :: rest, h => by
    have hc : (c == '\n') = false := by simpa using h c (by simp)
    have ih := @goReplaceNl_no_nl r rest (fun x hx => h x (by simp [hx]))
    simp [goReplaceNl, hc, ih]

/-- A nonempty string has a nonempty character list. -/
theorem data_ne_nil_of_ne_empty {t : String} (h : t ≠ "") : t.data ≠ [] := by
  intro hd
  apply h
  cases t with
  | mk l => cases hd; rfl

/-- Rendering a text node emits its payload, at any fuel, depth and
ambient list index. -/
theorem processADFNodeF_text (f : Nat) (t : String) (d li : Nat) :
    processADFNodeF (f + 1) [("type", GoVal.str "text"), ("text", GoVal.str t)] d li =
      some t.data :=
  rfl

/-- A list item whose only child is a text node buffers exactly that
text and writes nothing directly. -/
theorem listItemChildrenF_single_text (f : Nat) (t : String) (d : Nat) :
    listItemChildrenF (f + 2)
      [GoVal.obj [("type", GoVal.str "text"), ("text", GoVal.str t)]] d [] =
      some ([], t.data) :=
  rfl

/-- A `listItem` node holding a single text payload. -/
def textListItem (t : String) : GoVal :=
  GoVal.obj [("type", GoVal.str "listItem"),
    ("content", GoVal.arr [GoVal.obj [("type", GoVal.str "text"), ("text", GoVal.str t)]])]

/-- An `orderedList` node whose items are `textListItem`s. -/
def orderedListEntries (ts : List String) : List (String × GoVal) :=
  [("type", GoVal.str "orderedList"), ("content", GoVal.arr (ts.map textListItem))]

/-- The expected rendering of an ordered list at depth `d`: one line per
item, `indent ++ "{i}. " ++ text ++ "\n"`, numbering from `i`. -/
def orderedLines (d : Nat) : Nat → List String → List Char
  | _, [] => []
  | i, t :: rest =>
    goIndent d ++ natChars i ++ ". ".data ++ t.data ++ ['\n'] ++ orderedLines d (i + 1) rest

/-- A list's `goListSize` strictly dominates its length. -/
theorem length_lt_goListSize : ∀ l : List GoVal, l.length < goListSize l
  | [] => by simp [goListSize]
  | v :: rest => by
    have h1 := length_lt_goListSize rest
    have h2 : 1 ≤ goValSize v := by cases v <;> simp [goValSize] <;> omega
    simp [goListSize]
    omega

/-- Enough fuel for an ordered list of `ts` is provided by the node's
`goEntriesSize`. -/
theorem orderedListEntries_size_bound (ts : List String) :
    ts.length + 4 ≤ goEntriesSize (orderedListEntries ts) := by
  have h := length_lt_goListSize (ts.map textListItem)
  simp only [List.length_map] at h
  simp [orderedListEntries, goEntriesSize, goValSize]
  omega

/-- The item loop renders text items with markers numbered from the
loop counter plus one, given fuel covering the item count. -/
theorem listItemsLoopF_textItems (d : Nat) :
    ∀ (ts : List String) (fuel i : Nat),
      (∀ t ∈ ts, t ≠ "" ∧ ∀ c ∈ t.data, c ≠ '\n') →
      ts.length + 3 ≤ fuel →
      listItemsLoopF fuel (ts.map textListItem) d true i = some (orderedLines d (i + 1) ts)
  | [], fuel, i, _, hfuel => by
    obtain ⟨f, rfl⟩ : ∃ f, fuel = f + 1 := ⟨fuel - 1, by omega⟩
    simp [listItemsLoopF, orderedLines]
  | t :: rest, fuel, i, h, hfuel => by
    obtain ⟨f, rfl⟩ : ∃ f, fuel = f + 3 := ⟨fuel - 3, by omega⟩
    obtain ⟨ht0, htn⟩ := h t (by simp)
    have hne : t.data ≠ [] := data_ne_nil_of_ne_empty ht0
    have ihyp := listItemsLoopF_textItems d rest (f + 2) (i + 1)
      (fun x hx => h x (by simp [hx])) (by simp at hfuel ⊢; omega)
    rw [List.map_cons]
    simp only [textListItem]
    conv_lhs => rw [listItemsLoopF]
    simp [lookupVal, getStr, listItemChildrenF_single_text f t d, hne,
      goTrimRightNl_no_nl htn, goReplaceNl_no_nl t.data htn, ihyp, orderedLines, textListItem]

/-- C9.  An `orderedList` node's items are rendered with 1-based
markers `"1. "`, `"2. "`, … : for any nesting depth `d` and any ambient
list index `li` (the renderer's position-among-siblings state), the
items of an ordered list of newline-free text items are numbered from
1 — the numbering restarts at 1 for every ordered list. -/
theorem orderedList_markers_restart_at_one (d li : Nat) (ts : List String)
    (h : ∀ t ∈ ts, t ≠ "" ∧ ∀ c ∈ t.data, c ≠ '\n') :
    processADFNode (orderedListEntries ts) d li = some (orderedLines d 1 ts) := by
  have hb := orderedListEntries_size_bound ts
  obtain ⟨f, hf⟩ : ∃ f, goEntriesSize (orderedListEntries ts) = f + 1 :=
    ⟨goEntriesSize (orderedListEntries ts) - 1, by omega⟩
  unfold processADFNode
  rw [hf]
  exact listItemsLoopF_textItems d ts f 0 h (by omega)

/-- Witness for C9 at a concrete input: three list items at depth 2,
ambient list index 7, render with markers `"1. "`, `"2. "`, `"3. "`. -/
theorem orderedList_markers_restart_at_one_witness :
    (∀ t ∈ (["alpha", "beta", "gamma"] : List String), t ≠ "" ∧ ∀ c ∈ t.data, c ≠ '\n') ∧
    processADFNode (orderedListEntries ["alpha", "beta", "gamma"]) 2 7 =
      some (orderedLines 2 1 ["alpha", "beta", "gamma"]) :=
  ⟨by decide, orderedList_markers_restart_at_one 2 7 ["alpha", "beta", "gamma"] (by decide)⟩

/-- The three markers of the witness's rendering, spelled out. -/
theorem orderedLines_witness_value :
    orderedLines 2 1 ["alpha", "beta", "gamma"] =
      "    1. alpha\n    2. beta\n    3. gamma\n".data := by
  decide
